import Mathlib

/-
Shallow embedding of the similarity-search and scoring engine of the
X-auto-post-system repository:

  * src/next-app/src/utils/vectorStore.ts      (ImageRecord, searchByEmbedding, getUniqueAccounts, VectorStore.init)
  * src/next-app/src/utils/universalParser.ts  (cosineSimilarity, initCLIP)
  * pHash service (hammingDistance, pHashSimilarity, computeDCT, hex/binary helpers)
  * image-similarity service (findSimilarAccounts, scoreAndAggregate)

JavaScript numbers are modelled as rationals (exact arithmetic); Math.sqrt is
abstracted as an explicit function parameter, because only the branch
structure around it matters to the verified properties.  Promise-based lazy
initialization is modelled as a small state machine whose synchronous
sections are atomic (JavaScript run-to-completion semantics).
-/

/-- An image record of the vector store (vectorStore.ts, interface ImageRecord).
The embedding is the stored CLIP vector, pHash the 64-bit perceptual hash as a
hex string.  imageUrl is irrelevant to every verified property and omitted. -/
structure ImageRecord where
  id : String
  embedding : List ℚ
  pHash : String
  accountName : String
  accountHandle : String
  eventName : Option String
  createdAt : ℕ
deriving Repr, DecidableEq

/-- A search result (vectorStore.ts, interface SearchResult): an ImageRecord
together with its cosine-similarity score against the query. -/
structure SearchResult extends ImageRecord where
  clipScore : ℚ
deriving Repr, DecidableEq

/-- Embeds cosineSimilarity (universalParser.ts lines 917-936).  The length
guard throws; the `denominator === 0` guard returns 0; otherwise
dot / (sqrt normA * sqrt normB).  sqrtF abstracts Math.sqrt. -/
def cosineSimilarity (sqrtF : ℚ → ℚ) (a b : List ℚ) : Except String ℚ :=
  if a.length ≠ b.length then
    Except.error "Vectors must have the same length"
  else
    let dot := ((a.zip b).map fun p => p.1 * p.2).sum
    let normA := (a.map fun x => x * x).sum
    let normB := (b.map fun x => x * x).sum
    let denominator := sqrtF normA * sqrtF normB
    if denominator = 0 then Except.ok 0 else Except.ok (dot / denominator)

/-- The per-record scoring loop of searchByEmbedding (vectorStore.ts line 132):
`all.map(record => ({...record, clipScore: cosineSimilarity(queryEmbedding,
record.embedding)}))`, with the exception cosineSimilarity may throw
propagating (modelled as Except). -/
def scoreAll (sqrtF : ℚ → ℚ) (queryEmbedding : List ℚ) :
    List ImageRecord → Except String (List SearchResult)
  | [] => Except.ok []
  | r :: rs =>
    match cosineSimilarity sqrtF queryEmbedding r.embedding with
    | Except.error e => Except.error e
    | Except.ok s =>
      match scoreAll sqrtF queryEmbedding rs with
      | Except.error e => Except.error e
      | Except.ok rest => Except.ok ({ toImageRecord := r, clipScore := s } :: rest)

/-- Sorting descending by a key: the model of a JavaScript
`sort((a, b) => key(b) - key(a))` call. -/
def keyDesc {α β : Type} [LinearOrder β] (f : α → β) : α → α → Prop :=
  fun a b => f b ≤ f a

instance {α β : Type} [LinearOrder β] (f : α → β) : DecidableRel (keyDesc f) :=
  fun a b => inferInstanceAs (Decidable (f b ≤ f a))

instance {α β : Type} [LinearOrder β] (f : α → β) : IsTotal α (keyDesc f) :=
  ⟨fun a b => le_total (f b) (f a)⟩

instance {α β : Type} [LinearOrder β] (f : α → β) : IsTrans α (keyDesc f) :=
  ⟨fun _ _ _ h1 h2 => le_trans h2 h1⟩

/-- Descending sort by a numeric key. -/
def sortByDesc {α β : Type} [LinearOrder β] (f : α → β) (l : List α) : List α :=
  List.insertionSort (keyDesc f) l

/-- Embeds searchByEmbedding (vectorStore.ts lines 125-140): empty store
short-circuits to []; otherwise score every record, sort descending by
clipScore and keep the first topN. -/
def searchByEmbedding (sqrtF : ℚ → ℚ) (all : List ImageRecord)
    (queryEmbedding : List ℚ) (topN : ℕ) : Except String (List SearchResult) :=
  if all.length = 0 then Except.ok []
  else
    match scoreAll sqrtF queryEmbedding all with
    | Except.error e => Except.error e
    | Except.ok scored => Except.ok ((sortByDesc (fun r => r.clipScore) scored).take topN)

-- Basic lemmas about the embedding.

theorem cosineSimilarity_length_ne {sqrtF : ℚ → ℚ} {a b : List ℚ}
    (h : a.length ≠ b.length) :
    cosineSimilarity sqrtF a b = Except.error "Vectors must have the same length" := by
  simp [cosineSimilarity, h]

theorem cosineSimilarity_isOk {sqrtF : ℚ → ℚ} {a b : List ℚ}
    (h : a.length = b.length) : ∃ s, cosineSimilarity sqrtF a b = Except.ok s := by
  unfold cosineSimilarity
  rw [if_neg (by simp [h])]
  dsimp only
  split
  · exact ⟨0, rfl⟩
  · exact ⟨_, rfl⟩

theorem scoreAll_ok_of_dims {sqrtF : ℚ → ℚ} {q : List ℚ} {rs : List ImageRecord}
    (h : ∀ r ∈ rs, r.embedding.length = q.length) :
    ∃ scored, scoreAll sqrtF q rs = Except.ok scored ∧ scored.length = rs.length := by
  induction rs with
  | nil => exact ⟨[], rfl, rfl⟩
  | cons r rs ih =>
    obtain ⟨s, hs⟩ := @cosineSimilarity_isOk sqrtF q r.embedding
      (h r (List.mem_cons_self r rs)).symm
    obtain ⟨scored, hsc, hlen⟩ := ih (fun x hx => h x (List.mem_cons_of_mem r hx))
    exact ⟨{ toImageRecord := r, clipScore := s } :: scored,
      by simp [scoreAll, hs, hsc], by simp [hlen]⟩

theorem scoreAll_head_mismatch {sqrtF : ℚ → ℚ} {q : List ℚ} {r : ImageRecord}
    {rs : List ImageRecord} (h : q.length ≠ r.embedding.length) :
    scoreAll sqrtF q (r :: rs) = Except.error "Vectors must have the same length" := by
  simp [scoreAll, cosineSimilarity_length_ne h]

/-- A concrete stored record with a 2-dimensional embedding, used by witnesses. -/
def sampleRecord : ImageRecord :=
  { id := "img_1", embedding := [1, 0], pHash := "0000000000000000",
    accountName := "Alice", accountHandle := "@alice", eventName := none, createdAt := 0 }

/-- C1: on a non-empty index whose stored embeddings all have length L, a query
embedding of a different length makes searchByEmbedding raise the
dimension-mismatch error instead of returning any (coerced or zero-scored)
result list. -/
theorem searchByEmbedding_dim_mismatch_error (sqrtF : ℚ → ℚ) (all : List ImageRecord)
    (queryEmbedding : List ℚ) (topN L : ℕ) (hne : all ≠ [])
    (hL : ∀ r ∈ all, r.embedding.length = L) (hq : queryEmbedding.length ≠ L) :
    searchByEmbedding sqrtF all queryEmbedding topN =
      Except.error "Vectors must have the same length" := by
  match all, hne with
  | r :: rs, _ =>
    have h1 : scoreAll sqrtF queryEmbedding (r :: rs) =
        Except.error "Vectors must have the same length" :=
      scoreAll_head_mismatch (by rw [hL r (List.mem_cons_self r rs)]; exact hq)
    simp [searchByEmbedding, h1]

/-- Witness for C1: one stored record of dimension 2, a query of dimension 3. -/
theorem searchByEmbedding_dim_mismatch_error_witness :
    searchByEmbedding (fun q => q) [sampleRecord] [1, 0, 0] 10 =
      Except.error "Vectors must have the same length" :=
  searchByEmbedding_dim_mismatch_error (fun q => q) [sampleRecord] [1, 0, 0] 10 2
    (by decide) (by decide) (by decide)

/-- C10: for equal-length vectors, when either vector is all-zero (zero
magnitude) cosineSimilarity takes the guarded branch and returns exactly 0,
not an error.  The hypothesis sqrtF 0 = 0 is the one property of Math.sqrt that
the guard relies on. -/
theorem cosineSimilarity_zero_magnitude (sqrtF : ℚ → ℚ) (a b : List ℚ)
    (hs : sqrtF 0 = 0) (hlen : a.length = b.length)
    (hz : (∀ x ∈ a, x = 0) ∨ ∀ x ∈ b, x = 0) :
    cosineSimilarity sqrtF a b = Except.ok 0 := by
  have hsum : ∀ l : List ℚ, (∀ x ∈ l, x = 0) → (l.map fun x => x * x).sum = 0 := by
    intro l h
    induction l with
    | nil => simp
    | cons y ys ih =>
      simp only [List.map_cons, List.sum_cons, h y (List.mem_cons_self y ys),
        zero_mul, zero_add]
      exact ih fun x hx => h x (List.mem_cons_of_mem y hx)
  unfold cosineSimilarity
  rw [if_neg (by simp [hlen])]
  dsimp only
  rcases hz with h | h
  · rw [hsum a h, hs, zero_mul, if_pos rfl]
  · rw [hsum b h, hs, mul_zero, if_pos rfl]

/-- Witness for C10: the zero vector against [3, 4]. -/
theorem cosineSimilarity_zero_magnitude_witness :
    cosineSimilarity (fun q => q) [0, 0] [3, 4] = Except.ok 0 :=
  cosineSimilarity_zero_magnitude (fun q => q) [0, 0] [3, 4] rfl rfl
    (Or.inl (by decide))

/-- C4: when every stored embedding matches the query dimension,
searchByEmbedding succeeds with a list that is non-increasing in clipScore and
has length at most min(topN, corpus size). -/
theorem searchByEmbedding_ranked (sqrtF : ℚ → ℚ) (all : List ImageRecord)
    (queryEmbedding : List ℚ) (topN : ℕ)
    (hdim : ∀ r ∈ all, r.embedding.length = queryEmbedding.length) :
    ∃ l, searchByEmbedding sqrtF all queryEmbedding topN = Except.ok l ∧
      List.Sorted (keyDesc fun r : SearchResult => r.clipScore) l ∧
      l.length ≤ min topN all.length := by
  unfold searchByEmbedding
  by_cases hz : all.length = 0
  · rw [if_pos hz]
    exact ⟨[], rfl, List.sorted_nil, by simp⟩
  · rw [if_neg hz]
    obtain ⟨scored, hsc, hlen⟩ := scoreAll_ok_of_dims hdim
    rw [hsc]
    refine ⟨_, rfl, ?_, ?_⟩
    · exact List.Pairwise.sublist (List.take_sublist _ _)
        (List.sorted_insertionSort _ scored)
    · have hps : (sortByDesc (fun r : SearchResult => r.clipScore) scored).length
          = scored.length := (List.perm_insertionSort _ scored).length_eq
      rw [List.length_take, hps, hlen]

/-- Witness for C4: a single 2-dimensional record queried with a
2-dimensional vector. -/
theorem searchByEmbedding_ranked_witness :
    ∃ l, searchByEmbedding (fun q => q) [sampleRecord] [1, 0] 1 = Except.ok l ∧
      List.Sorted (keyDesc fun r : SearchResult => r.clipScore) l ∧
      l.length ≤ min 1 [sampleRecord].length :=
  searchByEmbedding_ranked (fun q => q) [sampleRecord] [1, 0] 1 (by decide)

/-- C9: with zero stored records the top-N query returns the empty list for
every query embedding, whatever its length; the dimension-mismatch error can
only arise once at least one record is stored, because the length check runs
per stored record. -/
theorem searchByEmbedding_empty_no_dim_check :
    (∀ (sqrtF : ℚ → ℚ) (q : List ℚ) (n : ℕ),
      searchByEmbedding sqrtF [] q n = Except.ok []) ∧
    (∀ (sqrtF : ℚ → ℚ) (q : List ℚ) (n L : ℕ) (all : List ImageRecord),
      all ≠ [] → (∀ r ∈ all, r.embedding.length = L) → q.length ≠ L →
      searchByEmbedding sqrtF all q n =
        Except.error "Vectors must have the same length") := by
  constructor
  · intro sqrtF q n
    rfl
  · intro sqrtF q n L all hne hL hq
    match all, hne with
    | r :: rs, _ =>
      have h1 : scoreAll sqrtF q (r :: rs) =
          Except.error "Vectors must have the same length" :=
        scoreAll_head_mismatch (by rw [hL r (List.mem_cons_self r rs)]; exact hq)
      simp [searchByEmbedding, h1]

-- Perceptual hash service (pHashService): hex/binary conversion, Hamming
-- distance and pHash similarity.

/-- parseInt(c, 16) for a single character: a value for 0-9, a-f, A-F and
NaN (none) otherwise. -/
def hexCharVal (c : Char) : Option ℕ :=
  if '0' ≤ c ∧ c ≤ '9' then some (c.toNat - '0'.toNat)
  else if 'a' ≤ c ∧ c ≤ 'f' then some (c.toNat - 'a'.toNat + 10)
  else if 'A' ≤ c ∧ c ≤ 'F' then some (c.toNat - 'A'.toNat + 10)
  else none

/-- One step of hexToBinary: parseInt(char, 16).toString(2).padStart(4, '0').
For a non-hex character parseInt yields NaN and the JavaScript expression
evaluates to the string "0NaN". -/
def hexCharToBits (c : Char) : List Char :=
  match hexCharVal c with
  | some v =>
    let ds := Nat.toDigits 2 v
    List.replicate (4 - ds.length) '0' ++ ds
  | none => ['0', 'N', 'a', 'N']

/-- Embeds hexToBinary (pHashService lines 163-169). -/
def hexToBinary (hex : String) : List Char :=
  List.flatMap hex.toList hexCharToBits

/-- Embeds hammingDistance (pHashService lines 94-108): iterate to the longer
binary expansion, missing positions read as '0', count differing positions. -/
def hammingDistance (hash1 hash2 : String) : ℕ :=
  let bin1 := hexToBinary hash1
  let bin2 := hexToBinary hash2
  let len := max bin1.length bin2.length
  (List.range len).countP fun i => bin1.getD i '0' != bin2.getD i '0'

/-- Embeds pHashSimilarity (pHashService lines 114-117): 1 - distance / 64. -/
def pHashSimilarity (hash1 hash2 : String) : ℚ :=
  1 - (hammingDistance hash1 hash2 : ℚ) / 64

/-- parseInt(chunk, 2) for a chunk of '0'/'1' characters. -/
def bitsToNat (chunk : List Char) : ℕ :=
  chunk.foldl (fun n c => 2 * n + (if c = '1' then 1 else 0)) 0

/-- One hex digit of binaryToHex: the chunk is padEnd(4, '0')-ed, parsed in
base 2 and printed in base 16. -/
def chunkToHexChar (chunk : List Char) : Char :=
  Nat.digitChar (bitsToNat (chunk ++ List.replicate (4 - chunk.length) '0'))

/-- Embeds binaryToHex (pHashService lines 151-158): the loop walks the
binary string four characters at a time; the final short chunk (if any) is
right-padded with '0'. -/
def binaryToHex : List Char → List Char
  | [] => []
  | [a] => [chunkToHexChar [a]]
  | [a, b] => [chunkToHexChar [a, b]]
  | [a, b, c] => [chunkToHexChar [a, b, c]]
  | a :: b :: c :: d :: rest => chunkToHexChar [a, b, c, d] :: binaryToHex rest

/-- The sixteen characters computePHash actually emits. -/
def hexLowerChars : List Char := "0123456789abcdef".toList

theorem hexCharToBits_len : ∀ c ∈ hexLowerChars, (hexCharToBits c).length = 4 := by
  decide

theorem hexCharToBits_inj : ∀ c ∈ hexLowerChars, ∀ d ∈ hexLowerChars,
    hexCharToBits c = hexCharToBits d → c = d := by
  decide

theorem flatMapBits_length (l : List Char) (h : ∀ c ∈ l, c ∈ hexLowerChars) :
    (List.flatMap l hexCharToBits).length = 4 * l.length := by
  induction l with
  | nil => simp
  | cons a t ih =>
    rw [List.flatMap_cons, List.length_append,
      hexCharToBits_len a (h a (List.mem_cons_self a t)),
      ih fun c hc => h c (List.mem_cons_of_mem a hc), List.length_cons]
    ring

theorem flatMapBits_inj : ∀ l1 l2 : List Char, l1.length = l2.length →
    (∀ c ∈ l1, c ∈ hexLowerChars) → (∀ c ∈ l2, c ∈ hexLowerChars) →
    List.flatMap l1 hexCharToBits = List.flatMap l2 hexCharToBits → l1 = l2 := by
  intro l1
  induction l1 with
  | nil =>
    intro l2 hlen _ _ _
    exact (List.length_eq_zero.mp hlen.symm).symm
  | cons a t ih =>
    intro l2 hlen h1 h2 heq
    match l2 with
    | [] => simp at hlen
    | b :: t2 =>
      rw [List.flatMap_cons, List.flatMap_cons] at heq
      have hl : (hexCharToBits a).length = (hexCharToBits b).length := by
        rw [hexCharToBits_len a (h1 a (List.mem_cons_self a t)),
          hexCharToBits_len b (h2 b (List.mem_cons_self b t2))]
      obtain ⟨he, ht⟩ := List.append_inj heq hl
      have hab : a = b := hexCharToBits_inj a (h1 a (List.mem_cons_self a t))
        b (h2 b (List.mem_cons_self b t2)) he
      have htt : t = t2 := ih t2 (by simpa using hlen)
        (fun c hc => h1 c (List.mem_cons_of_mem a hc))
        (fun c hc => h2 c (List.mem_cons_of_mem b hc)) ht
      rw [hab, htt]

/-- Counterexample to C7 as stated: the distinct hash strings "0" and "00"
have similarity exactly 1, because hammingDistance pads the shorter binary
expansion with '0'. -/
theorem pHashSimilarity_one_distinct_cex :
    pHashSimilarity "0" "00" = 1 ∧ ("0" : String) ≠ "00" := by
  refine ⟨?_, by decide⟩
  have h : hammingDistance "0" "00" = 0 := by decide
  rw [pHashSimilarity, h]
  norm_num

/-- C7 amended: restricted to 16-character strings over the lowercase hex
alphabet (the exact shape computePHash produces), similarity 1 forces
identical hashes: distinct such hashes always score below 1. -/
theorem pHashSimilarity_lt_one_of_ne (h1 h2 : String)
    (hl1 : h1.length = 16) (hl2 : h2.length = 16)
    (hc1 : ∀ c ∈ h1.toList, c ∈ hexLowerChars)
    (hc2 : ∀ c ∈ h2.toList, c ∈ hexLowerChars)
    (hne : h1 ≠ h2) :
    pHashSimilarity h1 h2 < 1 := by
  have htl1 : h1.toList.length = 16 := hl1
  have htl2 : h2.toList.length = 16 := hl2
  have hbl1 : (hexToBinary h1).length = 64 := by
    rw [hexToBinary, flatMapBits_length _ hc1, htl1]
  have hbl2 : (hexToBinary h2).length = 64 := by
    rw [hexToBinary, flatMapBits_length _ hc2, htl2]
  have hbne : hexToBinary h1 ≠ hexToBinary h2 := by
    intro he
    have hdata : h1.toList = h2.toList :=
      flatMapBits_inj _ _ (htl1.trans htl2.symm) hc1 hc2 he
    apply hne
    cases h1
    cases h2
    exact congrArg String.mk (by simpa [String.toList] using hdata)
  have hexi : ∃ i, i < 64 ∧ (hexToBinary h1).getD i '0' ≠ (hexToBinary h2).getD i '0' := by
    by_contra hno
    push_neg at hno
    apply hbne
    apply List.ext_getElem (hbl1.trans hbl2.symm)
    intro i hi1 hi2
    have hg := hno i (by omega)
    rwa [List.getD_eq_getElem _ _ (by omega), List.getD_eq_getElem _ _ (by omega)] at hg
  have hd : 0 < hammingDistance h1 h2 := by
    obtain ⟨i, hi, hne2⟩ := hexi
    rw [hammingDistance, List.countP_pos_iff]
    refine ⟨i, ?_, ?_⟩
    · rw [List.mem_range, hbl1, hbl2]
      simpa using hi
    · simpa [bne_iff_ne] using hne2
  rw [pHashSimilarity]
  have hpos : (0 : ℚ) < (hammingDistance h1 h2 : ℚ) / 64 :=
    div_pos (by exact_mod_cast hd) (by norm_num)
  linarith

/-- Witness for the amended C7 at two concrete 16-character hex hashes. -/
theorem pHashSimilarity_lt_one_of_ne_witness :
    pHashSimilarity "0000000000000000" "0000000000000001" < 1 :=
  pHashSimilarity_lt_one_of_ne "0000000000000000" "0000000000000001"
    (by decide) (by decide) (by decide) (by decide) (by decide)

-- The hash construction of computePHash (pHashService lines 58-79), given the
-- DCT coefficient matrix: extract the top-left 8x8 block minus the DC term,
-- take the median, threshold, pad to 64 bits, hex-encode.

/-- The 63 low-frequency coefficients, in the code's scan order (y outer,
x inner, skipping (0,0)). -/
def lowFreq (dct : ℕ → ℕ → ℚ) : List ℚ :=
  List.flatMap (List.range 8) fun y =>
    List.flatMap (List.range 8) fun x =>
      if y = 0 ∧ x = 0 then [] else [dct y x]

/-- The coefficients sorted ascending: [...lowFreq].sort((a, b) => a - b). -/
def sortedLowFreq (dct : ℕ → ℕ → ℚ) : List ℚ :=
  List.insertionSort (· ≤ ·) (lowFreq dct)

/-- sorted[Math.floor(sorted.length / 2)]. -/
def medianOfDCT (dct : ℕ → ℕ → ℚ) : ℚ :=
  (sortedLowFreq dct).getD ((sortedLowFreq dct).length / 2) 0

/-- The 63-character bit string: '1' where the coefficient strictly exceeds
the median. -/
def hashBits (dct : ℕ → ℕ → ℚ) : List Char :=
  (lowFreq dct).map fun v => if v > medianOfDCT dct then '1' else '0'

/-- hash.padEnd(64, '0').slice(0, 64). -/
def hashBits64 (dct : ℕ → ℕ → ℚ) : List Char :=
  (hashBits dct ++ List.replicate (64 - (hashBits dct).length) '0').take 64

/-- The final hex hash computePHash resolves with, as a character list. -/
def pHashFromDCT (dct : ℕ → ℕ → ℚ) : List Char :=
  binaryToHex (hashBits64 dct)

theorem binaryToHex_length : ∀ l : List Char,
    (binaryToHex l).length = (l.length + 3) / 4
  | [] => rfl
  | [_] => by simp [binaryToHex]
  | [_, _] => by simp [binaryToHex]
  | [_, _, _] => by simp [binaryToHex]
  | a :: b :: c :: d :: rest => by
    show (chunkToHexChar [a, b, c, d] :: binaryToHex rest).length = _
    have ih := binaryToHex_length rest
    simp only [List.length_cons, ih]
    omega

/-- C3: for every DCT coefficient matrix, the hash is built from the 63
low-frequency coefficients: the bit string thresholds each coefficient
against their median (in scan order), exactly one '0' bit is appended to
reach 64 bits, and the hex encoding is 16 characters.  The median clause is
stated abstractly: the chosen value splits the 63 coefficients into 31 below
or equal and 31 above or equal. -/
theorem computePHash_construction (dct : ℕ → ℕ → ℚ) :
    (lowFreq dct).length = 63 ∧
    hashBits64 dct = hashBits dct ++ ['0'] ∧
    (∀ k, k < 63 → (hashBits64 dct).getD k ' ' =
      if medianOfDCT dct < (lowFreq dct).getD k 0 then '1' else '0') ∧
    (∃ pre post, (lowFreq dct).Perm (pre ++ medianOfDCT dct :: post) ∧
      pre.length = 31 ∧ post.length = 31 ∧
      (∀ x ∈ pre, x ≤ medianOfDCT dct) ∧ (∀ x ∈ post, medianOfDCT dct ≤ x)) ∧
    (pHashFromDCT dct).length = 16 := by
  have hlf : (lowFreq dct).length = 63 := rfl
  have hhb : (hashBits dct).length = 63 := by
    rw [hashBits, List.length_map, hlf]
  have h64 : hashBits64 dct = hashBits dct ++ ['0'] := by
    rw [hashBits64, hhb]
    exact List.take_of_length_le (by simp [hhb])
  refine ⟨hlf, h64, ?_, ?_, ?_⟩
  · intro k hk
    have hk1 : k < (hashBits dct).length := by omega
    have hk2 : k < (lowFreq dct).length := by omega
    rw [h64, List.getD_append _ _ _ _ hk1, List.getD_eq_getElem _ _ hk1,
      List.getD_eq_getElem _ _ hk2]
    simp only [hashBits, List.getElem_map, gt_iff_lt]
  · have hperm : (sortedLowFreq dct).Perm (lowFreq dct) := List.perm_insertionSort _ _
    have hsl : (sortedLowFreq dct).length = 63 := by rw [hperm.length_eq, hlf]
    have hsorted : List.Pairwise (· ≤ ·) (sortedLowFreq dct) :=
      List.sorted_insertionSort _ _
    have h31 : 31 < (sortedLowFreq dct).length := by omega
    have hdiv : (63 : ℕ) / 2 = 31 := rfl
    have hm : medianOfDCT dct = (sortedLowFreq dct)[31] := by
      rw [medianOfDCT, hsl, hdiv]
      exact List.getD_eq_getElem _ _ h31
    refine ⟨(sortedLowFreq dct).take 31, (sortedLowFreq dct).drop 32, ?_, ?_, ?_, ?_, ?_⟩
    · have hsplit : sortedLowFreq dct =
          (sortedLowFreq dct).take 31 ++ medianOfDCT dct :: (sortedLowFreq dct).drop 32 := by
        rw [hm]
        conv_lhs => rw [← List.take_append_drop 31 (sortedLowFreq dct)]
        rw [List.drop_eq_getElem_cons h31]
      rw [← hsplit]
      exact hperm.symm
    · rw [List.length_take, hsl]
      omega
    · rw [List.length_drop, hsl]
    · intro x hx
      obtain ⟨i, hi, hix⟩ := List.mem_iff_getElem.mp hx
      have hi31 : i < 31 := by
        have hL := hi
        rw [List.length_take, hsl] at hL
        omega
      rw [hm, ← hix, List.getElem_take _]
      exact List.pairwise_iff_getElem.mp hsorted i 31 (by omega) h31 hi31
    · intro x hx
      obtain ⟨j, hj, hjx⟩ := List.mem_iff_getElem.mp hx
      have hj31 : 32 + j < (sortedLowFreq dct).length := by
        have hL := hj
        rw [List.length_drop, hsl] at hL
        omega
      rw [hm, ← hjx, List.getElem_drop _]
      exact List.pairwise_iff_getElem.mp hsorted 31 (32 + j) h31 hj31 (by omega)
  · rw [pHashFromDCT, binaryToHex_length, h64, List.length_append, hhb]
    norm_num

-- The DCT of the perceptual hasher (pHashService lines 124-146).

/-- Embeds computeDCT (pHashService lines 124-146).  cosF m stands for
Math.cos(m * PI / (2 * size)) and invSqrt2 for 1 / Math.sqrt(2), kept
abstract so the definition stays exact; the code multiplies the double sum
by the fixed prefactor 0.25 * cu * cv regardless of size. -/
def computeDCT {F : Type} [LinearOrderedField F] (cosF : ℕ → F) (invSqrt2 : F)
    (pixels : ℕ → ℕ → F) (size : ℕ) (u v : ℕ) : F :=
  let sum := (Finset.range size).sum fun x => (Finset.range size).sum fun y =>
    pixels x y * cosF ((2 * x + 1) * u) * cosF ((2 * y + 1) * v)
  (1 / 4) * (if u = 0 then invSqrt2 else 1) * (if v = 0 then invSqrt2 else 1) * sum

/-- Modelled from the spec: "the full 2-D Discrete Cosine Transform (type II,
orthonormalized with C(0)=1/sqrt 2, C(k>0)=1)".  The orthonormal N-point 2-D
DCT-II carries the prefactor (2/N) * C(u) * C(v). -/
def dctOrthonormal {F : Type} [LinearOrderedField F] (cosF : ℕ → F) (invSqrt2 : F)
    (pixels : ℕ → ℕ → F) (size : ℕ) (u v : ℕ) : F :=
  (2 / (size : F)) * (if u = 0 then invSqrt2 else 1) * (if v = 0 then invSqrt2 else 1) *
    (Finset.range size).sum fun x => (Finset.range size).sum fun y =>
      pixels x y * cosF ((2 * x + 1) * u) * cosF ((2 * y + 1) * v)

/-- Counterexample to C6 as stated: on the all-ones 32x32 matrix, with the
real cosine and 1/sqrt 2, the code's DC coefficient is 128 while the
orthonormal DCT-II coefficient is 32 — the code's 0.25 prefactor is the
8-point constant, not 2/32. -/
theorem computeDCT_not_orthonormal_cex :
    computeDCT (fun m => Real.cos (m * Real.pi / 64)) (Real.sqrt 2)⁻¹
        (fun _ _ => 1) 32 0 0 ≠
      dctOrthonormal (fun m => Real.cos (m * Real.pi / 64)) (Real.sqrt 2)⁻¹
        (fun _ _ => 1) 32 0 0 := by
  have hs : (Real.sqrt 2)⁻¹ * (Real.sqrt 2)⁻¹ = 1 / 2 := by
    rw [← mul_inv, Real.mul_self_sqrt (by norm_num : (0:ℝ) ≤ 2)]
    norm_num
  have h1 : computeDCT (fun m => Real.cos (m * Real.pi / 64)) (Real.sqrt 2)⁻¹
      (fun _ _ => 1) 32 0 0 = 128 := by
    rw [computeDCT]
    simp only [Nat.mul_zero, Nat.cast_zero, zero_mul, zero_div, Real.cos_zero,
      mul_one, one_mul, if_pos rfl, if_true, Finset.sum_const, Finset.card_range,
      nsmul_eq_mul]
    linear_combination (256 : ℝ) * hs
  have h2 : dctOrthonormal (fun m => Real.cos (m * Real.pi / 64)) (Real.sqrt 2)⁻¹
      (fun _ _ => 1) 32 0 0 = 32 := by
    rw [dctOrthonormal]
    simp only [Nat.mul_zero, Nat.cast_zero, zero_mul, zero_div, Real.cos_zero,
      mul_one, one_mul, if_pos rfl, if_true, Finset.sum_const, Finset.card_range,
      nsmul_eq_mul]
    push_cast
    linear_combination (64 : ℝ) * hs
  rw [h1, h2]
  norm_num

/-- C6 amended: for the 32x32 input the code's computeDCT equals 4 times the
orthonormal DCT-II coefficient (it keeps the 8-point prefactor 0.25 instead
of 2/N = 1/16), for every cosine table, scaling constant, pixel matrix and
frequency pair. -/
theorem computeDCT_eq_four_mul_orthonormal (F : Type) [LinearOrderedField F]
    (cosF : ℕ → F) (invSqrt2 : F) (pixels : ℕ → ℕ → F) (u v : ℕ) :
    computeDCT cosF invSqrt2 pixels 32 u v =
      4 * dctOrthonormal cosF invSqrt2 pixels 32 u v := by
  rw [computeDCT, dctOrthonormal]
  push_cast
  ring

-- The scoring engine (image-similarity service): scoreAndAggregate and its
-- helpers, parametrized by the full index contents in place of the
-- vectorStore global.

/-- One unique-accounts entry of getUniqueAccounts (vectorStore.ts 217-238). -/
structure AccountInfo where
  name : String
  handle : String
  count : ℕ
deriving Repr, DecidableEq

/-- One step of the accountMap loop of getUniqueAccounts: existing handles
get their count bumped, new handles are appended (Map insertion order). -/
def bumpAccount (acc : List AccountInfo) (r : ImageRecord) : List AccountInfo :=
  if acc.any fun a => a.handle == r.accountHandle then
    acc.map fun a =>
      if a.handle = r.accountHandle then { a with count := a.count + 1 } else a
  else acc ++ [{ name := r.accountName, handle := r.accountHandle, count := 1 }]

/-- Embeds getUniqueAccounts: accumulate per-handle counts in insertion
order, then sort by count descending. -/
def getUniqueAccounts (all : List ImageRecord) : List AccountInfo :=
  sortByDesc (fun a => a.count) (all.foldl bumpAccount [])

/-- accountCountMap.get(handle): the count of a handle in the unique-accounts
list, if present. -/
def accountCountOf (all : List ImageRecord) (handle : String) : Option ℕ :=
  ((getUniqueAccounts all).find? fun a => a.handle == handle).map fun a => a.count

/-- Math.max(...uniqueAccounts.map(a => a.count), 1). -/
def maxCount (all : List ImageRecord) : ℕ :=
  ((getUniqueAccounts all).map fun a => a.count).foldl max 1

/-- candidate.eventName.includes(eventName): substring containment. -/
def strIncludes (s t : String) : Bool :=
  decide (List.IsInfix t.toList s.toList)

/-- The metadata bonus (image-similarity service lines 542-550).  JavaScript
truthiness makes an empty string behave like an absent event name. -/
def metadataBonusOf (eventName candEvent : Option String) : ℚ :=
  match eventName, candEvent with
  | some e, some ce =>
    if e = "" ∨ ce = "" then 0
    else if ce = e then 2/10
    else if strIncludes ce e || strIncludes e ce then 1/10
    else 0
  | _, _ => 0

/-- The per-image data pushed into accountMap (lines 560-565). -/
structure CandidateImage where
  id : String
  clipScore : ℚ
  pHashScore : ℚ
  metadataBonus : ℚ
deriving Repr, DecidableEq

/-- One accountMap entry: name, handle and the images pushed for it. -/
structure AccountGroup where
  accountName : String
  accountHandle : String
  images : List CandidateImage
deriving Repr, DecidableEq

/-- The component scores of a ScoredCandidate. -/
structure ComponentScores where
  clip : ℚ
  pHash : ℚ
  metadata : ℚ
  frequency : ℚ
deriving Repr, DecidableEq

/-- A scored account candidate (interface ScoredCandidate). -/
structure ScoredCandidate where
  accountName : String
  accountHandle : String
  scores : ComponentScores
  totalScore : ℚ
  matchedImages : List (String × ℚ)
  imageCount : ℕ
deriving Repr, DecidableEq

/-- The per-candidate image data (lines 539-550 and 560-565). -/
def candidateImage (queryHash : String) (eventName : Option String)
    (c : SearchResult) : CandidateImage :=
  { id := c.id, clipScore := c.clipScore,
    pHashScore := pHashSimilarity queryHash c.pHash,
    metadataBonus := metadataBonusOf eventName c.eventName }

/-- One iteration of the grouping loop (lines 536-566). -/
def addCandidate (queryHash : String) (eventName : Option String)
    (groups : List AccountGroup) (c : SearchResult) : List AccountGroup :=
  let img := candidateImage queryHash eventName c
  if groups.any fun g => g.accountHandle == c.accountHandle then
    groups.map fun g =>
      if g.accountHandle = c.accountHandle then { g with images := g.images ++ [img] }
      else g
  else
    groups ++
      [{ accountName := c.accountName, accountHandle := c.accountHandle,
         images := [img] }]

/-- The accountMap after the grouping loop, in Map insertion order. -/
def buildGroups (queryHash : String) (eventName : Option String)
    (candidates : List SearchResult) : List AccountGroup :=
  candidates.foldl (addCandidate queryHash eventName) []

/-- The weighted per-image score used to pick the best image (lines 573-577):
clip*0.50 + pHash*0.30 + metadata*0.15. -/
def imageBaseScore (img : CandidateImage) : ℚ :=
  img.clipScore * (1/2) + img.pHashScore * (3/10) + img.metadataBonus * (3/20)

/-- images.reduce((best, img) => score > bestScore ? img : best): the first
element seeds the fold, strict comparison keeps the earliest maximum. -/
def bestImage (first : CandidateImage) (rest : List CandidateImage) : CandidateImage :=
  rest.foldl
    (fun best img => if imageBaseScore img > imageBaseScore best then img else best)
    first

/-- The final per-account scoring (lines 571-602).  none models the reduce()
call on an empty group, which in JavaScript throws; the grouping loop never
produces an empty group. -/
def scoreGroup (all : List ImageRecord) (g : AccountGroup) : Option ScoredCandidate :=
  match g.images with
  | [] => none
  | first :: rest =>
    let best := bestImage first rest
    let imageCount := (accountCountOf all g.accountHandle).getD 1
    let frequencyBonus := (imageCount : ℚ) / (maxCount all : ℚ) * (1/10)
    some
      { accountName := g.accountName, accountHandle := g.accountHandle,
        scores := { clip := best.clipScore, pHash := best.pHashScore,
                    metadata := best.metadataBonus, frequency := frequencyBonus },
        totalScore := best.clipScore * (1/2) + best.pHashScore * (3/10) +
          best.metadataBonus * (3/20) + frequencyBonus * (1/20),
        matchedImages := g.images.map fun img => (img.id, img.clipScore),
        imageCount := imageCount }

/-- Embeds scoreAndAggregate (lines 513-606): group by account handle, score
each group from its best image, sort by totalScore descending. -/
def scoreAndAggregate (candidates : List SearchResult) (all : List ImageRecord)
    (queryHash : String) (eventName : Option String) : List ScoredCandidate :=
  sortByDesc (fun sc => sc.totalScore)
    ((buildGroups queryHash eventName candidates).filterMap (scoreGroup all))

theorem bestImage_cons (first x : CandidateImage) (rest : List CandidateImage) :
    bestImage first (x :: rest) =
      bestImage (if imageBaseScore x > imageBaseScore first then x else first) rest :=
  rfl

theorem bestImage_mem : ∀ (rest : List CandidateImage) (first : CandidateImage),
    bestImage first rest ∈ first :: rest := by
  intro rest
  induction rest with
  | nil => intro first; exact List.mem_cons_self _ _
  | cons x rest ih =>
    intro first
    rw [bestImage_cons]
    have h := ih (if imageBaseScore x > imageBaseScore first then x else first)
    rcases List.mem_cons.mp h with h1 | h2
    · rw [h1]
      by_cases hc : imageBaseScore x > imageBaseScore first
      · rw [if_pos hc]
        exact List.mem_cons_of_mem _ (List.mem_cons_self _ _)
      · rw [if_neg hc]
        exact List.mem_cons_self _ _
    · exact List.mem_cons_of_mem _ (List.mem_cons_of_mem _ h2)

theorem bestImage_max : ∀ (rest : List CandidateImage) (first img : CandidateImage),
    img ∈ first :: rest →
    imageBaseScore img ≤ imageBaseScore (bestImage first rest) := by
  intro rest
  induction rest with
  | nil =>
    intro first img hmem
    rcases List.mem_cons.mp hmem with h1 | h2
    · rw [h1]
      exact le_refl _
    · simp at h2
  | cons x rest ih =>
    intro first img hmem
    rw [bestImage_cons]
    have hfirst : imageBaseScore first ≤
        imageBaseScore (if imageBaseScore x > imageBaseScore first then x else first) := by
      by_cases hc : imageBaseScore x > imageBaseScore first
      · rw [if_pos hc]; linarith
      · rw [if_neg hc]
    have hx : imageBaseScore x ≤
        imageBaseScore (if imageBaseScore x > imageBaseScore first then x else first) := by
      by_cases hc : imageBaseScore x > imageBaseScore first
      · rw [if_pos hc]
      · rw [if_neg hc]; linarith [not_lt.mp hc]
    have hself : imageBaseScore (if imageBaseScore x > imageBaseScore first then x else first) ≤
        imageBaseScore (bestImage (if imageBaseScore x > imageBaseScore first then x else first) rest) :=
      ih _ _ (List.mem_cons_self _ _)
    rcases List.mem_cons.mp hmem with h1 | h2
    · rw [h1]; linarith
    · rcases List.mem_cons.mp h2 with h3 | h4
      · rw [h3]; linarith
      · exact ih _ _ (List.mem_cons_of_mem _ h4)

/-- C2: every emitted ScoredCandidate scores its account from a single best
image: some image of the account's group maximizes
clip*0.50 + pHash*0.30 + metadata*0.15, and the totalScore is exactly that
maximum plus frequencyBonus*0.05 (frequencyBonus being count/maxCount*0.1
over the whole index) — not an average or sum over the account's images. -/
theorem scoreAndAggregate_totalScore (candidates : List SearchResult)
    (all : List ImageRecord) (queryHash : String) (eventName : Option String)
    (sc : ScoredCandidate)
    (hsc : sc ∈ scoreAndAggregate candidates all queryHash eventName) :
    ∃ g ∈ buildGroups queryHash eventName candidates,
      g.accountHandle = sc.accountHandle ∧ g.images ≠ [] ∧
      ∃ best ∈ g.images,
        (∀ img ∈ g.images, imageBaseScore img ≤ imageBaseScore best) ∧
        sc.totalScore = best.clipScore * (1/2) + best.pHashScore * (3/10) +
          best.metadataBonus * (3/20) +
          (((accountCountOf all sc.accountHandle).getD 1 : ℚ) / (maxCount all : ℚ)
            * (1/10)) * (1/20) := by
  rw [scoreAndAggregate, sortByDesc, List.mem_insertionSort] at hsc
  obtain ⟨g, hg, hsome⟩ := List.mem_filterMap.mp hsc
  refine ⟨g, hg, ?_⟩
  rcases hgi : g.images with _ | ⟨first, rest⟩
  · rw [scoreGroup, hgi] at hsome
    simp at hsome
  · rw [scoreGroup, hgi] at hsome
    dsimp only at hsome
    rw [Option.some.injEq] at hsome
    subst hsome
    refine ⟨rfl, List.cons_ne_nil _ _, bestImage first rest, ?_, ?_, rfl⟩
    · exact bestImage_mem rest first
    · intro img himg
      exact bestImage_max rest first img himg

/-- A perfect self-match candidate: sampleRecord scored with clipScore 1. -/
def sampleCandidate : SearchResult :=
  { toImageRecord := sampleRecord, clipScore := 1 }

/-- The ScoredCandidate the perfect self-match scenario produces:
totalScore 1*0.50 + 1*0.30 + 0*0.15 + 0.1*0.05 = 0.805 = 161/200. -/
def sampleScored : ScoredCandidate :=
  { accountName := "Alice", accountHandle := "@alice",
    scores := { clip := 1, pHash := 1, metadata := 0, frequency := 1/10 },
    totalScore := 161/200,
    matchedImages := [("img_1", 1)],
    imageCount := 1 }

theorem sampleAggregate_eval :
    scoreAndAggregate [sampleCandidate] [sampleRecord] "0000000000000000" none =
      [sampleScored] := by
  have h0 : hammingDistance "0000000000000000" "0000000000000000" = 0 := by decide
  have hH : pHashSimilarity "0000000000000000" "0000000000000000" = 1 := by
    rw [pHashSimilarity, h0]
    norm_num
  simp [scoreAndAggregate, sortByDesc, buildGroups, addCandidate, candidateImage,
    scoreGroup, bestImage, accountCountOf, getUniqueAccounts, bumpAccount, maxCount,
    metadataBonusOf, hH, sampleCandidate, sampleRecord, sampleScored,
    List.insertionSort, List.orderedInsert]
  norm_num

/-- Witness for C2 at the perfect self-match scenario: one stored record,
query equal to its embedding and hash, no context tag, totalScore 0.805. -/
theorem scoreAndAggregate_totalScore_witness :
    (∃ g ∈ buildGroups "0000000000000000" none [sampleCandidate],
      g.accountHandle = sampleScored.accountHandle ∧ g.images ≠ [] ∧
      ∃ best ∈ g.images,
        (∀ img ∈ g.images, imageBaseScore img ≤ imageBaseScore best) ∧
        sampleScored.totalScore = best.clipScore * (1/2) + best.pHashScore * (3/10) +
          best.metadataBonus * (3/20) +
          (((accountCountOf [sampleRecord] sampleScored.accountHandle).getD 1 : ℚ) /
            (maxCount [sampleRecord] : ℚ) * (1/10)) * (1/20)) ∧
    sampleScored.totalScore = 161/200 :=
  ⟨scoreAndAggregate_totalScore [sampleCandidate] [sampleRecord] "0000000000000000" none
      sampleScored (by rw [sampleAggregate_eval]; exact List.mem_singleton_self _),
    rfl⟩

-- The search orchestrator findSimilarAccounts (image-similarity service
-- lines 463-508), with the CLIP model, embedding extraction and pHash
-- computation supplied as already-computed inputs; progress reports are
-- collected in order.  Message texts are abbreviated English stand-ins for
-- the code's strings; the verified properties concern status and percent.

/-- The progress states (type SearchProgress.status). -/
inductive SearchStatus
  | initializing
  | extractingEmbedding
  | searching
  | scoring
  | done
deriving Repr, DecidableEq

/-- One onProgress report: status, percent, message. -/
structure SearchProgress where
  status : SearchStatus
  progress : ℕ
  message : String
deriving Repr, DecidableEq

/-- TOP_N_SEARCH (line 452). -/
def TOP_N_SEARCH : ℕ := 50

/-- Embeds findSimilarAccounts: report initializing/extracting/searching,
run the vector search, short-circuit to done on an empty candidate list,
otherwise score and report scoring before done.  Errors of any step
propagate (Except); the reports before the failure are then lost to the
caller, as in the code. -/
def findSimilarAccounts (sqrtF : ℚ → ℚ) (all : List ImageRecord)
    (embedding : List ℚ) (queryHash : String) (eventName : Option String) :
    Except String (List ScoredCandidate × List SearchProgress) :=
  let t0 : List SearchProgress :=
    [{ status := SearchStatus.initializing, progress := 0, message := "preparing model" },
     { status := SearchStatus.initializing, progress := 20, message := "model ready" },
     { status := SearchStatus.extractingEmbedding, progress := 30, message := "extracting features" },
     { status := SearchStatus.extractingEmbedding, progress := 50, message := "features extracted" },
     { status := SearchStatus.searching, progress := 55, message := "searching" }]
  match searchByEmbedding sqrtF all embedding TOP_N_SEARCH with
  | Except.error e => Except.error e
  | Except.ok candidates =>
    if candidates.length = 0 then
      Except.ok ([], t0 ++
        [{ status := SearchStatus.done, progress := 100, message := "no candidates" }])
    else
      Except.ok (scoreAndAggregate candidates all queryHash eventName, t0 ++
        [{ status := SearchStatus.searching, progress := 70, message := "candidates found" },
         { status := SearchStatus.scoring, progress := 75, message := "scoring" },
         { status := SearchStatus.done, progress := 100, message := "done" }])

/-- C5: on an empty index the search returns the empty candidate list, the
progress trace ends with a done report at 100, and no scoring report is ever
issued, whatever the query embedding, hash and event tag. -/
theorem findSimilarAccounts_empty_index (sqrtF : ℚ → ℚ) (embedding : List ℚ)
    (queryHash : String) (eventName : Option String) :
    ∃ tr, findSimilarAccounts sqrtF [] embedding queryHash eventName =
        Except.ok ([], tr) ∧
      (∃ p ∈ tr, p.status = SearchStatus.done ∧ p.progress = 100) ∧
      ∀ p ∈ tr, p.status ≠ SearchStatus.scoring := by
  refine ⟨_, rfl, ?_, ?_⟩
  · exact ⟨{ status := SearchStatus.done, progress := 100, message := "no candidates" },
      by simp, rfl, rfl⟩
  · intro p hp
    fin_cases hp <;> simp

-- Lazy initialization (VectorStore.init, vectorStore.ts lines 42-73, and
-- initCLIP, universalParser.ts lines 836-873) as state machines.  JavaScript
-- is single-threaded with run-to-completion: the synchronous section of each
-- function — from the guard checks to the assignment of the cached promise —
-- runs atomically, so one call is one transition.  Attempts are numbered so
-- that "observing the same in-flight attempt" is expressible; `started`
-- counts how many attempts were ever created.

/-- The state VectorStore.init reads and writes: this.db (set or not),
this.initPromise (the cached attempt, if any). -/
structure VectorStoreInit where
  dbReady : Bool
  inFlight : Option ℕ
  started : ℕ
deriving Repr, DecidableEq

/-- The module-load state: db null, initPromise null. -/
def vectorStoreInitStart : VectorStoreInit :=
  { dbReady := false, inFlight := none, started := 0 }

/-- One call to init(): when this.db is set return at once (no attempt
observed); when this.initPromise is cached return that attempt; otherwise
create and cache a fresh attempt. -/
def vectorStoreInitCall (s : VectorStoreInit) : VectorStoreInit × Option ℕ :=
  if s.dbReady then (s, none)
  else
    match s.inFlight with
    | some p => (s, some p)
    | none =>
      ({ s with inFlight := some s.started, started := s.started + 1 }, some s.started)

/-- request.onerror: the open request fails, the promise rejects, and the
code clears neither this.db nor this.initPromise. -/
def vectorStoreInitFail (s : VectorStoreInit) : VectorStoreInit := s

/-- An event before the first successful initialization: another caller
arrives, or the in-flight open request fails. -/
inductive InitEvent
  | call
  | fail
deriving Repr, DecidableEq

/-- Run a trace of events from a state, collecting the attempt each caller
observes. -/
def vectorStoreRun : List InitEvent → VectorStoreInit → VectorStoreInit × List ℕ
  | [], s => (s, [])
  | InitEvent.call :: evs, s =>
    let r := vectorStoreInitCall s
    let rest := vectorStoreRun evs r.1
    (rest.1, r.2.toList ++ rest.2)
  | InitEvent.fail :: evs, s => vectorStoreRun evs (vectorStoreInitFail s)

theorem vectorStoreRun_single : ∀ (evs : List InitEvent) (s : VectorStoreInit),
    s.dbReady = false →
    ((s.inFlight = none ∧ s.started = 0) ∨ (s.inFlight = some 0 ∧ s.started = 1)) →
    (vectorStoreRun evs s).1.started ≤ 1 ∧ ∀ i ∈ (vectorStoreRun evs s).2, i = 0 := by
  intro evs
  induction evs with
  | nil =>
    intro s hdb hinv
    refine ⟨?_, by simp [vectorStoreRun]⟩
    rcases hinv with ⟨_, h⟩ | ⟨_, h⟩ <;> simp [vectorStoreRun, h]
  | cons e evs ih =>
    intro s hdb hinv
    cases e with
    | fail => exact ih s hdb hinv
    | call =>
      rcases hinv with ⟨hf, hs⟩ | ⟨hf, hs⟩
      · have hcall : vectorStoreInitCall s =
            ({ s with inFlight := some 0, started := 1 }, some 0) := by
          rw [vectorStoreInitCall, if_neg (by rw [hdb]; exact Bool.false_ne_true), hf, hs]
        have ihr := ih { s with inFlight := some 0, started := 1 } hdb (Or.inr ⟨rfl, rfl⟩)
        refine ⟨?_, ?_⟩
        · show (vectorStoreRun (InitEvent.call :: evs) s).1.started ≤ 1
          simp only [vectorStoreRun, hcall]
          exact ihr.1
        · intro i hi
          simp only [vectorStoreRun, hcall, Option.toList_some, List.cons_append,
            List.nil_append, List.mem_cons] at hi
          rcases hi with rfl | hi
          · rfl
          · exact ihr.2 i hi
      · have hcall : vectorStoreInitCall s = (s, some 0) := by
          rw [vectorStoreInitCall, if_neg (by rw [hdb]; exact Bool.false_ne_true), hf]
        have ihr := ih s hdb (Or.inr ⟨hf, hs⟩)
        refine ⟨?_, ?_⟩
        · simp only [vectorStoreRun, hcall]
          exact ihr.1
        · intro i hi
          simp only [vectorStoreRun, hcall, Option.toList_some, List.cons_append,
            List.nil_append, List.mem_cons] at hi
          rcases hi with rfl | hi
          · rfl
          · exact ihr.2 i hi

/-- The module-level state initCLIP reads and writes: embeddingPipeline
(set or not), isLoading, loadingPromise (the cached attempt, if any). -/
structure ClipInit where
  pipelineReady : Bool
  isLoading : Bool
  inFlight : Option ℕ
  started : ℕ
deriving Repr, DecidableEq

/-- Module-load state: pipeline null, isLoading false, loadingPromise null. -/
def clipInitStart : ClipInit :=
  { pipelineReady := false, isLoading := false, inFlight := none, started := 0 }

/-- One call to initCLIP(): return at once when the pipeline is set; share
the cached promise when isLoading && loadingPromise; otherwise set isLoading
and cache a fresh attempt (the async body runs synchronously up to its first
await, so both assignments happen in this transition). -/
def clipInitCall (s : ClipInit) : ClipInit × Option ℕ :=
  if s.pipelineReady then (s, none)
  else if s.isLoading ∧ s.inFlight.isSome then (s, s.inFlight)
  else
    ({ s with isLoading := true, inFlight := some s.started, started := s.started + 1 },
      some s.started)

/-- n concurrent callers while the first attempt has not completed (neither
resolved nor rejected — the finally block has not yet reset isLoading). -/
def clipRun : ℕ → ClipInit → ClipInit × List ℕ
  | 0, s => (s, [])
  | n + 1, s =>
    let r := clipInitCall s
    let rest := clipRun n r.1
    (rest.1, r.2.toList ++ rest.2)

theorem clipRun_single : ∀ (n : ℕ) (s : ClipInit),
    s.pipelineReady = false →
    ((s.isLoading = false ∧ s.inFlight = none ∧ s.started = 0) ∨
      (s.isLoading = true ∧ s.inFlight = some 0 ∧ s.started = 1)) →
    (clipRun n s).1.started ≤ 1 ∧ ∀ i ∈ (clipRun n s).2, i = 0 := by
  intro n
  induction n with
  | zero =>
    intro s hp hinv
    refine ⟨?_, by simp [clipRun]⟩
    rcases hinv with ⟨_, _, h⟩ | ⟨_, _, h⟩ <;> simp [clipRun, h]
  | succ n ih =>
    intro s hp hinv
    rcases hinv with ⟨hl, hf, hs⟩ | ⟨hl, hf, hs⟩
    · have hcall : clipInitCall s =
          ({ s with isLoading := true, inFlight := some 0, started := 1 }, some 0) := by
        rw [clipInitCall, if_neg (by rw [hp]; exact Bool.false_ne_true),
          if_neg (by rw [hl]; simp), hs]
      have ihr := ih { s with isLoading := true, inFlight := some 0, started := 1 }
        hp (Or.inr ⟨rfl, rfl, rfl⟩)
      refine ⟨?_, ?_⟩
      · simp only [clipRun, hcall]
        exact ihr.1
      · intro i hi
        simp only [clipRun, hcall, Option.toList_some, List.cons_append,
          List.nil_append, List.mem_cons] at hi
        rcases hi with rfl | hi
        · rfl
        · exact ihr.2 i hi
    · have hcall : clipInitCall s = (s, some 0) := by
        rw [clipInitCall, if_neg (by rw [hp]; exact Bool.false_ne_true),
          if_pos (by rw [hl, hf]; simp), hf]
      have ihr := ih s hp (Or.inr ⟨hl, hf, hs⟩)
      refine ⟨?_, ?_⟩
      · simp only [clipRun, hcall]
        exact ihr.1
      · intro i hi
        simp only [clipRun, hcall, Option.toList_some, List.cons_append,
          List.nil_append, List.mem_cons] at hi
        rcases hi with rfl | hi
        · rfl
        · exact ihr.2 i hi

/-- C8: before the first successful initialization completes, every caller
of VectorStore.init observes the one attempt numbered 0 — even across failed
open requests, which the code never clears — and at most one attempt is ever
started; likewise every initCLIP caller while the first load is in flight
shares attempt 0, so no duplicate schema creation or model setup occurs. -/
theorem lazy_init_single_attempt :
    (∀ evs : List InitEvent,
      (vectorStoreRun evs vectorStoreInitStart).1.started ≤ 1 ∧
      ∀ i ∈ (vectorStoreRun evs vectorStoreInitStart).2, i = 0) ∧
    (∀ n : ℕ,
      (clipRun n clipInitStart).1.started ≤ 1 ∧
      ∀ i ∈ (clipRun n clipInitStart).2, i = 0) :=
  ⟨fun evs => vectorStoreRun_single evs _ rfl (Or.inl ⟨rfl, rfl⟩),
   fun n => clipRun_single n _ rfl (Or.inl ⟨rfl, rfl, rfl⟩)⟩
